import Mathlib

/-!
# Manfred session core: shallow embedding and verification

This file embeds the session phase state machine, the session entity, the
SQLite-backed session store and the migration runner of the `manfred`
repository, and proves the testable properties of its specification.

Conventions of the embedding:
* Go `type Phase string` is embedded as `Phase := String`.
* `time.Time` values are embedded as natural numbers (instants on a clock);
  every operation that calls `time.Now()` takes the sampled instant as an
  explicit argument.
* Go methods that mutate the receiver and return an `error` are embedded as
  functions returning the post-state together with an optional error, so that
  the receiver's state after a failed call is part of the model.
* The SQLite tables are embedded as lists of rows; the semantics of each SQL
  statement issued by the store (UNIQUE constraints, `ON DELETE CASCADE`,
  `ORDER BY ... DESC`, `LIMIT`/`OFFSET`, `NOT IN`) is spelled out on those
  lists.
-/

namespace Manfred

/-! ## Phase state machine (session/phase.go) -/

/-- Go: `type Phase string`. -/
abbrev Phase := String

def PhasePlanning : Phase := "planning"
def PhaseAwaitingApproval : Phase := "awaiting_approval"
def PhaseImplementing : Phase := "implementing"
def PhaseInReview : Phase := "in_review"
def PhaseRevising : Phase := "revising"
def PhaseCompleted : Phase := "completed"
def PhaseError : Phase := "error"

/-- Go: `AllPhases`. -/
def AllPhases : List Phase :=
  [PhasePlanning, PhaseAwaitingApproval, PhaseImplementing,
   PhaseInReview, PhaseRevising, PhaseCompleted, PhaseError]

/-- Go: `ActivePhases`. -/
def ActivePhases : List Phase :=
  [PhasePlanning, PhaseAwaitingApproval, PhaseImplementing,
   PhaseInReview, PhaseRevising]

/-- Go: `Phase.IsValid`. -/
def Phase.IsValid (p : Phase) : Bool :=
  p == PhasePlanning || p == PhaseAwaitingApproval || p == PhaseImplementing ||
  p == PhaseInReview || p == PhaseRevising || p == PhaseCompleted || p == PhaseError

/-- Go: `Phase.IsTerminal`. -/
def Phase.IsTerminal (p : Phase) : Bool :=
  p == PhaseCompleted || p == PhaseError

/-- Go: `Phase.IsActive`. -/
def Phase.IsActive (p : Phase) : Bool :=
  p.IsValid && !p.IsTerminal

/-- Go: the `validTransitions` map. A key's absence is `none`
(the map lookup's `ok == false`); `PhaseCompleted` maps to the empty list. -/
def validTransitions (p : Phase) : Option (List Phase) :=
  if p == PhasePlanning then some [PhaseAwaitingApproval, PhaseError]
  else if p == PhaseAwaitingApproval then some [PhasePlanning, PhaseImplementing, PhaseError]
  else if p == PhaseImplementing then some [PhaseInReview, PhaseError]
  else if p == PhaseInReview then some [PhaseRevising, PhaseCompleted, PhaseError]
  else if p == PhaseRevising then some [PhaseInReview, PhaseError]
  else if p == PhaseCompleted then some []
  else if p == PhaseError then some [PhasePlanning]
  else none

/-- Go: `Phase.CanTransitionTo`. -/
def Phase.CanTransitionTo (p target : Phase) : Bool :=
  match validTransitions p with
  | none => false
  | some allowed => allowed.contains target

/-- Go: `Phase.ValidTransitions` (map lookup with zero value on a miss). -/
def Phase.ValidTransitionsOf (p : Phase) : List Phase :=
  (validTransitions p).getD []

/-- Go: `TransitionError` with fields `From` and `To`. -/
structure TransitionError where
  From : Phase
  To : Phase
deriving Repr, DecidableEq

/-- Go: `ValidateTransition`; `none` is Go's `nil` error. -/
def ValidateTransition (from_ to_ : Phase) : Option TransitionError :=
  if !from_.CanTransitionTo to_ then some ⟨from_, to_⟩ else none

/-! ## Session entity (session/session.go) -/

/-- Go: `Session`. Timestamps are clock instants (`Nat`); `Option` embeds
Go's pointer fields (`nil` = `none`). -/
structure Session where
  id : String
  repoOwner : String
  repoName : String
  issueNumber : Int
  prNumber : Option Int
  phase : Phase
  branch : String
  containerID : Option String
  planContent : Option String
  errorMessage : Option String
  createdAt : Nat
  lastActivity : Nat
deriving Repr, DecidableEq

/-- Go: `GenerateSessionID`. -/
def GenerateSessionID (owner repo : String) (issueNumber : Int) : String :=
  s!"{owner}-{repo}-issue-{issueNumber}"

/-- Go: `GenerateBranchName`. -/
def GenerateBranchName (issueNumber : Int) : String :=
  s!"claude/issue-{issueNumber}"

/-- Go: `NewSession`; `now` is the sampled `time.Now()`. -/
def NewSession (owner repo : String) (issueNumber : Int) (now : Nat) : Session :=
  { id := GenerateSessionID owner repo issueNumber
    repoOwner := owner
    repoName := repo
    issueNumber := issueNumber
    prNumber := none
    phase := PhasePlanning
    branch := GenerateBranchName issueNumber
    containerID := none
    planContent := none
    errorMessage := none
    createdAt := now
    lastActivity := now }

/-- Go: `Session.TransitionTo`. Returns the receiver's post-state and the
returned error; on a rejected transition the receiver is untouched. -/
def Session.TransitionTo (s : Session) (target : Phase) (now : Nat) :
    Session × Option TransitionError :=
  match ValidateTransition s.phase target with
  | some err => (s, some err)
  | none => ({ s with phase := target, lastActivity := now }, none)

/-- Go: `Session.SetPlan` — `TransitionTo(awaiting_approval)`, and only on
success also store the plan. -/
def Session.SetPlan (s : Session) (plan : String) (now : Nat) :
    Session × Option TransitionError :=
  match s.TransitionTo PhaseAwaitingApproval now with
  | (s1, some err) => (s1, some err)
  | (s1, none) => ({ s1 with planContent := some plan }, none)

/-- Go: `Session.Approve`. -/
def Session.Approve (s : Session) (now : Nat) : Session × Option TransitionError :=
  s.TransitionTo PhaseImplementing now

/-- Go: `Session.SetPRNumber`. -/
def Session.SetPRNumber (s : Session) (prNumber : Int) (now : Nat) : Session :=
  { s with prNumber := some prNumber, lastActivity := now }

/-- Go: `Session.SetError` — attempt `TransitionTo(error)` (sampling `now1`),
force `phase := error` if it was rejected, then set the message and sample
`now2` for `lastActivity`; always returns a `nil` error. -/
def Session.SetError (s : Session) (msg : String) (now1 now2 : Nat) :
    Session × Option TransitionError :=
  let s1 :=
    match s.TransitionTo PhaseError now1 with
    | (s0, some _) => { s0 with phase := PhaseError }
    | (s0, none) => s0
  ({ s1 with errorMessage := some msg, lastActivity := now2 }, none)

/-- Go: `Session.SetContainerID`. -/
def Session.SetContainerID (s : Session) (containerID : String) (now : Nat) : Session :=
  { s with containerID := some containerID, lastActivity := now }

/-- Go: `Session.ClearContainerID`. -/
def Session.ClearContainerID (s : Session) (now : Nat) : Session :=
  { s with containerID := none, lastActivity := now }

/-- Go: `Session.Touch`. -/
def Session.Touch (s : Session) (now : Nat) : Session :=
  { s with lastActivity := now }

/-- Go: `Session.Validate`; `some msg` is the first failing check's error. -/
def Session.Validate (s : Session) : Option String :=
  if s.id == "" then some "session ID is required"
  else if s.repoOwner == "" then some "repository owner is required"
  else if s.repoName == "" then some "repository name is required"
  else if s.issueNumber ≤ 0 then some "issue number must be positive"
  else if !s.phase.IsValid then some "invalid phase"
  else if s.branch == "" then some "branch name is required"
  else none

/-- Go: `SessionEvent` (a `session_events` row). -/
structure SessionEvent where
  id : Int
  sessionID : String
  eventType : String
  payload : String
  createdAt : Nat
deriving Repr, DecidableEq

/-- Go: `SessionFilter`. -/
structure SessionFilter where
  repoOwner : String
  repoName : String
  phase : Option Phase
  activeOnly : Bool
  limit : Int
  offset : Int
deriving Repr, DecidableEq

/-! ## SQLite session store (internal/session/store.go with the schema of
internal/store/migrations.go)

The two tables are embedded as lists of rows in insertion order.  The store's
errors are embedded as a sum so that the uniqueness conflict (`Create` mapping
a `UNIQUE constraint failed` to a "session already exists" error), the
zero-rows-affected `not found` errors, and generic storage faults stay
distinguishable, exactly as the Go code distinguishes them. -/

inductive StoreError where
  | validation : String → StoreError
  | uniqueness : String → String → Int → StoreError
  | notFound : String → StoreError
  | storage : String → StoreError
deriving Repr, DecidableEq

/-- The sessions and session_events tables plus the AUTOINCREMENT counter. -/
structure StoreState where
  sessions : List Session
  events : List SessionEvent
  nextEventID : Int
deriving Repr, DecidableEq

/-- The schema's `id TEXT PRIMARY KEY` and `UNIQUE(repo_owner, repo_name,
issue_number)` constraints: an INSERT fails with `UNIQUE constraint failed`
exactly when an existing row collides on either. -/
def uniqueViolation (rows : List Session) (s : Session) : Bool :=
  rows.any fun r =>
    r.id == s.id ||
    (r.repoOwner == s.repoOwner && r.repoName == s.repoName && r.issueNumber == s.issueNumber)

/-- Go: `SQLiteStore.Create` — validate, INSERT, map a UNIQUE-constraint
failure to the "session already exists" error. -/
def StoreState.Create (st : StoreState) (s : Session) : StoreState × Option StoreError :=
  match s.Validate with
  | some msg => (st, some (.validation msg))
  | none =>
    if uniqueViolation st.sessions s then
      (st, some (.uniqueness s.repoOwner s.repoName s.issueNumber))
    else
      ({ st with sessions := st.sessions ++ [s] }, none)

/-- Go: `SQLiteStore.Get` — `SELECT ... WHERE id = ?`; `sql.ErrNoRows` is
returned as `(nil, nil)`, i.e. `none`. -/
def StoreState.Get (st : StoreState) (id : String) : Option Session :=
  st.sessions.find? fun r => r.id == id

/-- Go: `SQLiteStore.Delete` — `DELETE FROM sessions WHERE id = ?`; with
`PRAGMA foreign_keys=ON` the schema's `ON DELETE CASCADE` also removes the
session's event rows; zero rows affected is the not-found error. -/
def StoreState.Delete (st : StoreState) (id : String) : StoreState × Option StoreError :=
  if st.sessions.any (fun r => r.id == id) then
    ({ st with
        sessions := st.sessions.filter fun r => !(r.id == id)
        events := st.events.filter fun e => !(e.sessionID == id) }, none)
  else
    (st, some (.notFound id))

/-- Go: `SQLiteStore.RecordEvent` — INSERT into session_events; the schema's
`REFERENCES sessions(id)` (foreign keys enabled) rejects an unknown session. -/
def StoreState.RecordEvent (st : StoreState) (sessionID eventType payload : String)
    (now : Nat) : StoreState × Option StoreError :=
  if st.sessions.any (fun r => r.id == sessionID) then
    ({ st with
        events := st.events ++ [⟨st.nextEventID, sessionID, eventType, payload, now⟩]
        nextEventID := st.nextEventID + 1 }, none)
  else
    (st, some (.storage "FOREIGN KEY constraint failed"))

/-- Ordering used by `GetEvents`' `ORDER BY created_at ASC`. -/
def eventOrder (a b : SessionEvent) : Prop := a.createdAt ≤ b.createdAt

instance : DecidableRel eventOrder := fun a b =>
  inferInstanceAs (Decidable (a.createdAt ≤ b.createdAt))

instance : IsTotal SessionEvent eventOrder :=
  ⟨fun a b => Nat.le_total a.createdAt b.createdAt⟩

instance : IsTrans SessionEvent eventOrder :=
  ⟨fun _ _ _ h1 h2 => Nat.le_trans h1 h2⟩

/-- Go: `SQLiteStore.GetEvents` — events of the session, `ORDER BY
created_at ASC` (a stable sort of the rows). -/
def StoreState.GetEvents (st : StoreState) (sessionID : String) : List SessionEvent :=
  (st.events.filter fun e => e.sessionID == sessionID).insertionSort eventOrder

/-- The conjunction of WHERE conditions `List` and `Count` build from a
filter: `repo_owner = ?`, `repo_name = ?`, `phase = ?`, and
`phase NOT IN ('completed', 'error')`, each added only when set. -/
def matchesFilter (f : SessionFilter) (s : Session) : Bool :=
  (f.repoOwner == "" || s.repoOwner == f.repoOwner) &&
  ((f.repoName == "" || s.repoName == f.repoName) &&
  ((match f.phase with
    | none => true
    | some p => s.phase == p) &&
  (!f.activeOnly || (!(s.phase == PhaseCompleted) && !(s.phase == PhaseError)))))

/-- Ordering used by `List`'s `ORDER BY last_activity DESC`. -/
def sessOrder (a b : Session) : Prop := b.lastActivity ≤ a.lastActivity

instance : DecidableRel sessOrder := fun a b =>
  inferInstanceAs (Decidable (b.lastActivity ≤ a.lastActivity))

instance : IsTotal Session sessOrder :=
  ⟨fun a b => Nat.le_total b.lastActivity a.lastActivity⟩

instance : IsTrans Session sessOrder :=
  ⟨fun _ _ _ h1 h2 => Nat.le_trans h2 h1⟩

/-- Go: `SQLiteStore.List` — WHERE the filter's conditions, ORDER BY
last_activity DESC, and a LIMIT (with an OFFSET only alongside a positive
LIMIT, exactly as the query is assembled). -/
def StoreState.List (st : StoreState) (f : SessionFilter) : List Session :=
  if f.limit > 0 then
    (if f.offset > 0 then
        ((st.sessions.filter (matchesFilter f)).insertionSort sessOrder).drop f.offset.toNat
      else
        (st.sessions.filter (matchesFilter f)).insertionSort sessOrder).take f.limit.toNat
  else (st.sessions.filter (matchesFilter f)).insertionSort sessOrder

/-- Go: `SQLiteStore.Count` — `SELECT COUNT(*)` under the same conditions. -/
def StoreState.Count (st : StoreState) (f : SessionFilter) : Nat :=
  (st.sessions.filter (matchesFilter f)).length

/-! ## Migration runner (internal/store/migrations.go)

The three migrations are abstracted to their version numbers; executing an
up-step is abstracted to appending its version to a log.  `runMigrations`
reads the recorded version once (`SELECT COALESCE(MAX(version), 0)`), then
walks the migration list, skipping steps at or below that version, and runs
each remaining step atomically with its version recorded in the same
transaction (migration 3's up-statement coincides with the bootstrap
`CREATE TABLE IF NOT EXISTS schema_migrations`, so only its version record
has any effect; its recording is a single atomic INSERT).  The oracle `ok`
says whether a given step's SQL succeeds; on a failure the transaction rolls
back and the run stops with an error, leaving that step unrecorded. -/

def migrationVersions : List Nat := [1, 2, 3]

/-- The recorded schema version together with the log of up-steps actually
applied, in execution order. -/
structure MigState where
  version : Nat
  applied : List Nat
deriving Repr, DecidableEq

/-- The loop of Go's `runMigrations`: `cur` is the version read before the
loop; the Bool result is `true` for a clean run, `false` when a step's
transaction failed and the run aborted. -/
def runMigrationsList (ok : Nat → Bool) (cur : Nat) : List Nat → MigState → MigState × Bool
  | [], st => (st, true)
  | v :: rest, st =>
    if v ≤ cur then runMigrationsList ok cur rest st
    else if ok v then
      runMigrationsList ok cur rest { version := v, applied := st.applied ++ [v] }
    else (st, false)

/-- Go: `runMigrations` — read the current version, then apply pending
steps. -/
def runMigrations (ok : Nat → Bool) (st : MigState) : MigState × Bool :=
  runMigrationsList ok st.version migrationVersions st

/-! ## Spec-side definitions

These follow the specification's words, to be compared with the embedded
code; they are used only on the spec side of refinement statements. -/

/-- The §4.1 transition table as the spec writes it: the exact list of
directed edges. -/
def specTransitionEdges : List (Phase × Phase) :=
  [(PhasePlanning, PhaseAwaitingApproval), (PhasePlanning, PhaseError),
   (PhaseAwaitingApproval, PhasePlanning), (PhaseAwaitingApproval, PhaseImplementing),
   (PhaseAwaitingApproval, PhaseError),
   (PhaseImplementing, PhaseInReview), (PhaseImplementing, PhaseError),
   (PhaseInReview, PhaseRevising), (PhaseInReview, PhaseCompleted),
   (PhaseInReview, PhaseError),
   (PhaseRevising, PhaseInReview), (PhaseRevising, PhaseError),
   (PhaseError, PhasePlanning)]

/-- Whether the spec's table lists the edge `(f, t)`. -/
def specEdge (f t : Phase) : Bool :=
  specTransitionEdges.contains (f, t)

/-- The spec's reading of a filter: the conjunction of its set conditions
(§4.3 `list`) — repo owner equality, repo name equality, phase equality,
and, when active-only is set, exclusion of the terminal phases. -/
def FilterSpec (f : SessionFilter) (s : Session) : Prop :=
  (f.repoOwner ≠ "" → s.repoOwner = f.repoOwner) ∧
  (f.repoName ≠ "" → s.repoName = f.repoName) ∧
  (f.phase = none ∨ f.phase = some s.phase) ∧
  (f.activeOnly = true → s.phase ≠ PhaseCompleted ∧ s.phase ≠ PhaseError)

instance (f : SessionFilter) (s : Session) : Decidable (FilterSpec f s) := by
  unfold FilterSpec; infer_instance

/-- The §3 invariants of a live session: the clock never ran backwards past
its creation, and its phase is one of the seven valid values. -/
def Session.Inv (s : Session) : Prop :=
  s.createdAt ≤ s.lastActivity ∧ s.phase ∈ AllPhases

instance (s : Session) : Decidable s.Inv := by
  unfold Session.Inv; infer_instance

/-- A fixed session used to instantiate theorems with hypotheses. -/
def sampleSession : Session := NewSession "acme" "widgets" 42 100

/-- An empty store, used to instantiate theorems with hypotheses. -/
def emptyStore : StoreState :=
  { sessions := [], events := [], nextEventID := 1 }

/-- A second fixed session, for a different issue. -/
def otherSession : Session := NewSession "acme" "gadgets" 7 90

/-- A store holding two sessions, two events of the first and one of the
second, used to instantiate theorems with hypotheses. -/
def sampleStore : StoreState :=
  { sessions := [sampleSession, otherSession]
    events := [⟨1, sampleSession.id, "phase_change", "", 101⟩,
               ⟨2, sampleSession.id, "error", "", 102⟩,
               ⟨3, otherSession.id, "phase_change", "", 103⟩]
    nextEventID := 4 }

/-! ## Theorems -/

/-- **C1.** For every ordered pair of the seven phases, `CanTransitionTo`
agrees exactly with the §4.1 edge table, and for every pair not in the table
`ValidateTransition` returns a `TransitionError` carrying exactly that `from`
and that `to`. -/
theorem canTransitionTo_matches_spec_table :
    ∀ f, f ∈ AllPhases → ∀ t, t ∈ AllPhases →
      f.CanTransitionTo t = specEdge f t ∧
      (specEdge f t = false → ValidateTransition f t = some ⟨f, t⟩) := by
  intro f hf t ht
  fin_cases hf <;> fin_cases ht <;> exact ⟨by decide, by decide⟩

theorem canTransitionTo_matches_spec_table_witness :
    PhaseCompleted.CanTransitionTo PhasePlanning = specEdge PhaseCompleted PhasePlanning ∧
    ValidateTransition PhaseCompleted PhasePlanning =
      some ⟨PhaseCompleted, PhasePlanning⟩ :=
  ⟨(canTransitionTo_matches_spec_table PhaseCompleted (by decide) PhasePlanning (by decide)).1,
   (canTransitionTo_matches_spec_table PhaseCompleted (by decide) PhasePlanning (by decide)).2
     (by decide)⟩

/-- **C2.** In every phase, `SetError` succeeds (returns a `nil` error), and
afterwards the phase is `error`, the error message is the given one, and
`lastActivity` has been updated to the sampled instant — even when the
transition table has no edge from the prior phase to `error`. -/
theorem setError_always_succeeds (s : Session) (msg : String) (now1 now2 : Nat) :
    (s.SetError msg now1 now2).2 = none ∧
    (s.SetError msg now1 now2).1.phase = PhaseError ∧
    (s.SetError msg now1 now2).1.errorMessage = some msg ∧
    (s.SetError msg now1 now2).1.lastActivity = now2 := by
  unfold Session.SetError Session.TransitionTo
  cases h : ValidateTransition s.phase PhaseError <;> simp

/-- **C10.** `SetError` changes only `phase`, `errorMessage` and
`lastActivity`: every other field of the session — including an active
container reference — is exactly as it was before the call. -/
theorem setError_frame (s : Session) (msg : String) (now1 now2 : Nat) :
    (s.SetError msg now1 now2).1.id = s.id ∧
    (s.SetError msg now1 now2).1.repoOwner = s.repoOwner ∧
    (s.SetError msg now1 now2).1.repoName = s.repoName ∧
    (s.SetError msg now1 now2).1.issueNumber = s.issueNumber ∧
    (s.SetError msg now1 now2).1.branch = s.branch ∧
    (s.SetError msg now1 now2).1.prNumber = s.prNumber ∧
    (s.SetError msg now1 now2).1.containerID = s.containerID ∧
    (s.SetError msg now1 now2).1.planContent = s.planContent ∧
    (s.SetError msg now1 now2).1.createdAt = s.createdAt := by
  unfold Session.SetError Session.TransitionTo
  cases h : ValidateTransition s.phase PhaseError <;> simp

/-- **C4.** `TransitionTo` and `SetPlan` are atomic on the in-memory session:
when the requested transition is legal, `TransitionTo` sets the phase to the
target and bumps `lastActivity`, and `SetPlan` additionally stores the plan;
when it is illegal, a `TransitionError` is returned and the session —
`phase`, `lastActivity` and `planContent` included — is exactly as it was
before the call. -/
theorem transitionTo_setPlan_atomic (s : Session) (target : Phase) (plan : String) (now : Nat) :
    (s.phase.CanTransitionTo target = true →
      s.TransitionTo target now = ({ s with phase := target, lastActivity := now }, none)) ∧
    (s.phase.CanTransitionTo target = false →
      s.TransitionTo target now = (s, some ⟨s.phase, target⟩)) ∧
    (s.phase.CanTransitionTo PhaseAwaitingApproval = true →
      s.SetPlan plan now =
        ({ s with phase := PhaseAwaitingApproval, lastActivity := now,
                  planContent := some plan }, none)) ∧
    (s.phase.CanTransitionTo PhaseAwaitingApproval = false →
      s.SetPlan plan now = (s, some ⟨s.phase, PhaseAwaitingApproval⟩)) := by
  unfold Session.SetPlan Session.TransitionTo ValidateTransition
  refine ⟨fun h => ?_, fun h => ?_, fun h => ?_, fun h => ?_⟩ <;> simp [h]

theorem transitionTo_setPlan_atomic_witness :
    sampleSession.TransitionTo PhaseAwaitingApproval 105 =
      ({ sampleSession with phase := PhaseAwaitingApproval, lastActivity := 105 }, none) ∧
    sampleSession.TransitionTo PhaseCompleted 105 =
      (sampleSession, some ⟨PhasePlanning, PhaseCompleted⟩) ∧
    sampleSession.SetPlan "do X" 105 =
      ({ sampleSession with phase := PhaseAwaitingApproval, lastActivity := 105,
                            planContent := some "do X" }, none) ∧
    Session.SetPlan { sampleSession with phase := PhaseImplementing } "do X" 106 =
      ({ sampleSession with phase := PhaseImplementing },
       some ⟨PhaseImplementing, PhaseAwaitingApproval⟩) :=
  ⟨(transitionTo_setPlan_atomic sampleSession PhaseAwaitingApproval "do X" 105).1 (by decide),
   (transitionTo_setPlan_atomic sampleSession PhaseCompleted "do X" 105).2.1 (by decide),
   (transitionTo_setPlan_atomic sampleSession PhaseAwaitingApproval "do X" 105).2.2.1
     (by decide),
   (transitionTo_setPlan_atomic { sampleSession with phase := PhaseImplementing }
     PhaseAwaitingApproval "do X" 106).2.2.2 (by decide)⟩

/-- **C6.** A new session's id is `{owner}-{repo}-issue-{issueNumber}`, its
branch is `claude/issue-{issueNumber}` (the agent prefix the code derives
branch names with), its phase is `planning`, and `createdAt` equals
`lastActivity`; in particular creating for ("acme", "widgets", 42) yields id
"acme-widgets-issue-42" and branch "claude/issue-42". -/
theorem newSession_derives_id_branch_phase (owner repo : String) (n : Int) (now : Nat) :
    (NewSession owner repo n now).id = s!"{owner}-{repo}-issue-{n}" ∧
    (NewSession owner repo n now).branch = s!"claude/issue-{n}" ∧
    (NewSession owner repo n now).phase = PhasePlanning ∧
    (NewSession owner repo n now).createdAt = (NewSession owner repo n now).lastActivity ∧
    (NewSession "acme" "widgets" 42 now).id = "acme-widgets-issue-42" ∧
    (NewSession "acme" "widgets" 42 now).branch = "claude/issue-42" :=
  ⟨rfl, rfl, rfl, rfl, rfl, rfl⟩

/-- Every target list in the transition table holds only valid phases. -/
theorem validTransitions_targets_valid {p : Phase} {l : List Phase}
    (h : validTransitions p = some l) : ∀ t ∈ l, t ∈ AllPhases := by
  unfold validTransitions at h
  split_ifs at h <;> cases h <;> intro t ht <;> fin_cases ht <;> decide

/-- A phase reachable by a legal transition is one of the seven values. -/
theorem canTransitionTo_target_valid {p t : Phase} (h : p.CanTransitionTo t = true) :
    t ∈ AllPhases := by
  unfold Phase.CanTransitionTo at h
  cases hv : validTransitions p with
  | none => rw [hv] at h; exact absurd h (by simp)
  | some l =>
      rw [hv] at h
      exact validTransitions_targets_valid hv t (by simpa using h)

/-- A `nil` result of `ValidateTransition` means the table allows the edge. -/
theorem canTransitionTo_of_validateTransition_eq_none {p t : Phase}
    (h : ValidateTransition p t = none) : p.CanTransitionTo t = true := by
  unfold ValidateTransition at h
  cases hc : p.CanTransitionTo t with
  | false => rw [hc] at h; simp at h
  | true => rfl

/-- `TransitionTo` preserves the invariant and `createdAt`. -/
theorem transitionTo_preserves_inv {s : Session} {target : Phase} {now : Nat}
    (hInv : s.Inv) (hnow : s.createdAt ≤ now) :
    (s.TransitionTo target now).1.Inv ∧ (s.TransitionTo target now).1.createdAt = s.createdAt := by
  unfold Session.TransitionTo
  cases hv : ValidateTransition s.phase target with
  | some err => exact ⟨hInv, rfl⟩
  | none =>
      exact ⟨⟨hnow, canTransitionTo_target_valid
        (canTransitionTo_of_validateTransition_eq_none hv)⟩, rfl⟩

/-- **C9.** A session built by `NewSession` satisfies the §3 invariants, and
every public mutator — `TransitionTo`, `SetPlan`, `Approve`, `SetError`,
`SetPRNumber`, `SetContainerID`, `ClearContainerID`, `Touch` — preserves
`lastActivity ≥ createdAt` and keeps the phase among the seven valid values,
never changing `createdAt`, whenever the sampled clock instants are at or
after the session's creation. -/
theorem session_operations_preserve_invariants
    (owner repo : String) (n : Int) (s : Session) (target : Phase)
    (plan msg cid : String) (pr : Int) (now now1 now2 : Nat)
    (hInv : s.Inv) (hnow : s.createdAt ≤ now)
    (hnow2 : s.createdAt ≤ now2) :
    (NewSession owner repo n now).Inv ∧
    ((s.TransitionTo target now).1.Inv ∧
      (s.TransitionTo target now).1.createdAt = s.createdAt) ∧
    ((s.SetPlan plan now).1.Inv ∧ (s.SetPlan plan now).1.createdAt = s.createdAt) ∧
    ((s.Approve now).1.Inv ∧ (s.Approve now).1.createdAt = s.createdAt) ∧
    ((s.SetError msg now1 now2).1.Inv ∧
      (s.SetError msg now1 now2).1.createdAt = s.createdAt) ∧
    ((s.SetPRNumber pr now).Inv ∧ (s.SetPRNumber pr now).createdAt = s.createdAt) ∧
    ((s.SetContainerID cid now).Inv ∧
      (s.SetContainerID cid now).createdAt = s.createdAt) ∧
    ((s.ClearContainerID now).Inv ∧ (s.ClearContainerID now).createdAt = s.createdAt) ∧
    ((s.Touch now).Inv ∧ (s.Touch now).createdAt = s.createdAt) := by
  refine ⟨⟨Nat.le_refl _, (show PhasePlanning ∈ AllPhases by decide)⟩,
    transitionTo_preserves_inv hInv hnow, ?_, ?_, ?_, ?_, ?_, ?_, ?_⟩
  · unfold Session.SetPlan
    have h := @transitionTo_preserves_inv s PhaseAwaitingApproval now hInv hnow
    cases hv : s.TransitionTo PhaseAwaitingApproval now with
    | mk s1 e =>
        rw [hv] at h
        cases e with
        | none => exact ⟨⟨h.1.1, h.1.2⟩, h.2⟩
        | some err => exact ⟨h.1, h.2⟩
  · exact transitionTo_preserves_inv hInv hnow
  · unfold Session.SetError Session.TransitionTo
    cases hvt : ValidateTransition s.phase PhaseError with
    | some err => exact ⟨⟨hnow2, (show PhaseError ∈ AllPhases by decide)⟩, rfl⟩
    | none => exact ⟨⟨hnow2, (show PhaseError ∈ AllPhases by decide)⟩, rfl⟩
  · exact ⟨⟨hnow, hInv.2⟩, rfl⟩
  · exact ⟨⟨hnow, hInv.2⟩, rfl⟩
  · exact ⟨⟨hnow, hInv.2⟩, rfl⟩
  · exact ⟨⟨hnow, hInv.2⟩, rfl⟩

theorem session_operations_preserve_invariants_witness :
    (NewSession "acme" "widgets" 42 200).Inv ∧
    ((sampleSession.TransitionTo PhaseAwaitingApproval 200).1.Inv ∧
      (sampleSession.TransitionTo PhaseAwaitingApproval 200).1.createdAt =
        sampleSession.createdAt) ∧
    ((sampleSession.SetPlan "p" 200).1.Inv ∧
      (sampleSession.SetPlan "p" 200).1.createdAt = sampleSession.createdAt) ∧
    ((sampleSession.Approve 200).1.Inv ∧
      (sampleSession.Approve 200).1.createdAt = sampleSession.createdAt) ∧
    ((sampleSession.SetError "boom" 210 220).1.Inv ∧
      (sampleSession.SetError "boom" 210 220).1.createdAt = sampleSession.createdAt) ∧
    ((sampleSession.SetPRNumber 9 200).Inv ∧
      (sampleSession.SetPRNumber 9 200).createdAt = sampleSession.createdAt) ∧
    ((sampleSession.SetContainerID "c1" 200).Inv ∧
      (sampleSession.SetContainerID "c1" 200).createdAt = sampleSession.createdAt) ∧
    ((sampleSession.ClearContainerID 200).Inv ∧
      (sampleSession.ClearContainerID 200).createdAt = sampleSession.createdAt) ∧
    ((sampleSession.Touch 200).Inv ∧
      (sampleSession.Touch 200).createdAt = sampleSession.createdAt) :=
  session_operations_preserve_invariants "acme" "widgets" 42 sampleSession
    PhaseAwaitingApproval "p" "boom" "c1" 9 200 210 220
    ⟨by decide, by decide⟩ (by decide) (by decide)

/-- **C3.** When no stored session collides with a valid session's key, the
first `Create` for its (owner, repo, issueNumber) triple succeeds, a second
`Create` for the same triple fails with the distinguishable uniqueness error
and leaves the store untouched, and after both calls the store holds exactly
one row for the triple — the first session created. -/
theorem create_unique_per_issue (st : StoreState) (s1 s2 : Session)
    (hval1 : s1.Validate = none) (hval2 : s2.Validate = none)
    (howner : s2.repoOwner = s1.repoOwner) (hname : s2.repoName = s1.repoName)
    (hissue : s2.issueNumber = s1.issueNumber)
    (hfresh : uniqueViolation st.sessions s1 = false) :
    (st.Create s1).2 = none ∧
    ((st.Create s1).1.Create s2).2 =
      some (StoreError.uniqueness s1.repoOwner s1.repoName s1.issueNumber) ∧
    ((st.Create s1).1.Create s2).1 = (st.Create s1).1 ∧
    ((st.Create s1).1.sessions.filter fun r =>
        r.repoOwner == s1.repoOwner && r.repoName == s1.repoName &&
          r.issueNumber == s1.issueNumber) = [s1] := by
  have hstep : st.Create s1 = ({ st with sessions := st.sessions ++ [s1] }, none) := by
    unfold StoreState.Create
    rw [hval1, hfresh]
    simp
  have hviol : uniqueViolation (st.sessions ++ [s1]) s2 = true := by
    unfold uniqueViolation
    rw [List.any_append]
    simp [howner, hname, hissue]
  have hnomatch : ∀ r ∈ st.sessions,
      (r.repoOwner == s1.repoOwner && r.repoName == s1.repoName &&
        r.issueNumber == s1.issueNumber) = false := by
    intro r hr
    unfold uniqueViolation at hfresh
    rw [List.any_eq_false] at hfresh
    have h := hfresh r hr
    cases hx : (r.repoOwner == s1.repoOwner && r.repoName == s1.repoName &&
        r.issueNumber == s1.issueNumber) with
    | false => rfl
    | true => exact absurd (by rw [hx]; simp) h
  refine ⟨by rw [hstep], ?_, ?_, ?_⟩
  · rw [hstep]
    unfold StoreState.Create
    rw [hval2, hviol]
    simp [howner, hname, hissue]
  · rw [hstep]
    unfold StoreState.Create
    rw [hval2, hviol]
    simp
  · rw [hstep]
    simp only [List.filter_append]
    rw [List.filter_eq_nil_iff.mpr (by intro r hr; rw [hnomatch r hr]; simp)]
    simp

theorem create_unique_per_issue_witness :
    (emptyStore.Create sampleSession).2 = none ∧
    ((emptyStore.Create sampleSession).1.Create (NewSession "acme" "widgets" 42 150)).2 =
      some (StoreError.uniqueness "acme" "widgets" 42) ∧
    ((emptyStore.Create sampleSession).1.Create (NewSession "acme" "widgets" 42 150)).1 =
      (emptyStore.Create sampleSession).1 ∧
    ((emptyStore.Create sampleSession).1.sessions.filter fun r =>
        r.repoOwner == sampleSession.repoOwner && r.repoName == sampleSession.repoName &&
          r.issueNumber == sampleSession.issueNumber) = [sampleSession] :=
  create_unique_per_issue emptyStore sampleSession (NewSession "acme" "widgets" 42 150)
    (by decide) (by decide) rfl rfl rfl (by decide)

/-- **C7.** Deleting a stored session id removes the session row and — via
the schema's cascade — every event recorded for it, so that afterwards `Get`
returns not-found (`none`) and `GetEvents` returns the empty sequence;
deleting an id with no matching row fails with the not-found error and
leaves the store unchanged. -/
theorem delete_removes_session_and_events (st : StoreState) (id : String) :
    (st.sessions.any (fun r => r.id == id) = true →
      (st.Delete id).2 = none ∧
      (st.Delete id).1.Get id = none ∧
      (st.Delete id).1.GetEvents id = []) ∧
    (st.sessions.any (fun r => r.id == id) = false →
      st.Delete id = (st, some (StoreError.notFound id))) := by
  constructor
  · intro h
    unfold StoreState.Delete StoreState.Get StoreState.GetEvents
    rw [if_pos h]
    refine ⟨rfl, ?_, ?_⟩
    · rw [List.find?_eq_none]
      intro x hx
      have hmem := List.of_mem_filter hx
      simp only [Bool.not_eq_eq_eq_not, Bool.not_true] at hmem
      simp [hmem]
    · have hnil : (st.events.filter fun e => !(e.sessionID == id)).filter
          (fun e => e.sessionID == id) = [] := by
        rw [List.filter_eq_nil_iff]
        intro e he
        have hmem := List.of_mem_filter he
        simp only [Bool.not_eq_eq_eq_not, Bool.not_true] at hmem
        simp [hmem]
      rw [hnil]
      rfl
  · intro h
    unfold StoreState.Delete
    rw [if_neg (by simp [h])]

theorem delete_removes_session_and_events_witness :
    ((sampleStore.Delete "acme-widgets-issue-42").2 = none ∧
      (sampleStore.Delete "acme-widgets-issue-42").1.Get "acme-widgets-issue-42" = none ∧
      (sampleStore.Delete "acme-widgets-issue-42").1.GetEvents "acme-widgets-issue-42" = []) ∧
    emptyStore.Delete "acme-widgets-issue-42" =
      (emptyStore, some (StoreError.notFound "acme-widgets-issue-42")) :=
  ⟨(delete_removes_session_and_events sampleStore "acme-widgets-issue-42").1 (by decide),
   (delete_removes_session_and_events emptyStore "acme-widgets-issue-42").2 (by decide)⟩

/-- The WHERE clause the store assembles decides exactly the spec's
conjunction of filter conditions. -/
theorem matchesFilter_iff (f : SessionFilter) (s : Session) :
    matchesFilter f s = true ↔ FilterSpec f s := by
  unfold matchesFilter FilterSpec
  cases hp : f.phase <;> cases ha : f.activeOnly <;>
    simp only [Bool.and_eq_true, Bool.or_eq_true, beq_iff_eq, Bool.not_true, Bool.not_false,
      Bool.not_eq_eq_eq_not, beq_eq_false_iff_ne, Option.some.injEq, reduceCtorEq,
      false_or, or_false, true_or, false_implies, true_and, and_true, true_implies, ne_eq,
      Bool.false_eq_true, Bool.true_eq_false, not_false_iff, iff_true, true_iff,
      @eq_comm _ s.phase] <;>
    tauto

/-- **C5.** `List` returns exactly the stored sessions satisfying the
conjunction of the filter's set conditions (with active-only excluding
exactly the `completed` and `error` phases), ordered by `lastActivity`
descending, and then restricted by limit and offset; `Count` counts the
sessions matching the same conditions. -/
theorem list_count_filter_semantics (st : StoreState) (f : SessionFilter) (s : Session) :
    (f.limit ≤ 0 → (s ∈ st.List f ↔ s ∈ st.sessions ∧ FilterSpec f s)) ∧
    (0 < f.limit → st.List f =
      ((st.List { f with limit := 0 }).drop
        (if 0 < f.offset then f.offset.toNat else 0)).take f.limit.toNat) ∧
    (st.List f).Sorted sessOrder ∧
    st.Count f = st.sessions.countP (fun r => decide (FilterSpec f r)) ∧
    (f.activeOnly = true → ∀ r ∈ st.List f,
      r.phase ≠ PhaseCompleted ∧ r.phase ≠ PhaseError) := by
  have hmem : ∀ r : Session,
      r ∈ (st.sessions.filter (matchesFilter f)).insertionSort sessOrder ↔
        r ∈ st.sessions ∧ FilterSpec f r := by
    intro r
    rw [List.mem_insertionSort, List.mem_filter, matchesFilter_iff]
  have hsublist : ∀ g : SessionFilter,
      st.List g ⊆ (st.sessions.filter (matchesFilter g)).insertionSort sessOrder := by
    intro g r hr
    unfold StoreState.List at hr
    split at hr
    · split at hr
      · exact List.drop_subset _ _ (List.take_subset _ _ hr)
      · exact List.take_subset _ _ hr
    · exact hr
  have hnolimit : ∀ g : SessionFilter, g.limit ≤ 0 →
      st.List g = (st.sessions.filter (matchesFilter g)).insertionSort sessOrder := by
    intro g hg
    unfold StoreState.List
    rw [if_neg (by omega)]
  refine ⟨?_, ?_, ?_, ?_, ?_⟩
  · intro hl
    rw [hnolimit f hl]
    exact hmem s
  · intro hl
    have h0 : st.List { f with limit := 0 } =
        (st.sessions.filter (matchesFilter f)).insertionSort sessOrder :=
      hnolimit { f with limit := 0 } (le_refl 0)
    rw [h0]
    unfold StoreState.List
    rw [if_pos hl]
    by_cases ho : f.offset > 0
    · rw [if_pos ho, if_pos ho]
    · rw [if_neg ho, if_neg ho, List.drop_zero]
  · have hs : ((st.sessions.filter (matchesFilter f)).insertionSort sessOrder).Sorted
        sessOrder := List.sorted_insertionSort sessOrder _
    unfold StoreState.List
    split
    · split
      · exact hs.sublist ((List.take_sublist _ _).trans (List.drop_sublist _ _))
      · exact hs.sublist (List.take_sublist _ _)
    · exact hs
  · unfold StoreState.Count
    rw [List.countP_eq_length_filter]
    congr 1
    apply List.filter_congr
    intro r hr
    by_cases h : FilterSpec f r
    · rw [(matchesFilter_iff f r).mpr h, decide_eq_true h]
    · rw [decide_eq_false h]
      cases hx : matchesFilter f r with
      | false => rfl
      | true => exact absurd ((matchesFilter_iff f r).mp hx) h
  · intro ha r hr
    have := ((hmem r).mp (hsublist f hr)).2
    exact this.2.2.2 ha

theorem list_count_filter_semantics_witness :
    (sampleSession ∈ sampleStore.List ⟨"", "", none, true, 0, 0⟩ ↔
      sampleSession ∈ sampleStore.sessions ∧
        FilterSpec ⟨"", "", none, true, 0, 0⟩ sampleSession) ∧
    sampleStore.List ⟨"", "", none, false, 1, 1⟩ =
      ((sampleStore.List ⟨"", "", none, false, 0, 1⟩).drop 1).take 1 ∧
    (sampleStore.List ⟨"", "", none, true, 0, 0⟩).Sorted sessOrder ∧
    sampleStore.Count ⟨"", "", none, true, 0, 0⟩ =
      sampleStore.sessions.countP
        (fun r => decide (FilterSpec ⟨"", "", none, true, 0, 0⟩ r)) ∧
    (∀ r ∈ sampleStore.List ⟨"", "", none, true, 0, 0⟩,
      r.phase ≠ PhaseCompleted ∧ r.phase ≠ PhaseError) := by
  have h1 := list_count_filter_semantics sampleStore ⟨"", "", none, true, 0, 0⟩ sampleSession
  have h2 := list_count_filter_semantics sampleStore ⟨"", "", none, false, 1, 1⟩ sampleSession
  exact ⟨h1.1 (by decide), by simpa using h2.2.1 (by decide), h1.2.2.1, h1.2.2.2.1,
    h1.2.2.2.2 rfl⟩

/-- A default below every element of a list bounds its `getLastD` from
below. -/
theorem le_getLastD {d : Nat} :
    ∀ (l : List Nat) (e : Nat), d ≤ e → (∀ x ∈ l, d ≤ x) → d ≤ l.getLastD e
  | [], _, he, _ => he
  | a :: l, e, _, h =>
      List.getLastD_cons e a l ▸
        le_getLastD l a (h a (List.mem_cons_self a l))
          (fun x hx => h x (List.mem_cons_of_mem _ hx))

/-- Closed form of the migration loop: it applies, in list order, the
longest all-succeeding prefix of the steps above the initially read version,
records exactly those versions, and reports whether every pending step
succeeded. -/
theorem runMigrationsList_eq (ok : Nat → Bool) (cur : Nat) :
    ∀ (L : List Nat) (st : MigState),
      runMigrationsList ok cur L st =
        ({ version :=
            ((L.filter fun v => decide (cur < v)).takeWhile ok).getLastD st.version
           applied :=
            st.applied ++ (L.filter fun v => decide (cur < v)).takeWhile ok },
         (L.filter fun v => decide (cur < v)).all ok) := by
  intro L
  induction L with
  | nil => intro st; simp [runMigrationsList]
  | cons v rest ih =>
      intro st
      unfold runMigrationsList
      by_cases h1 : v ≤ cur
      · rw [if_pos h1, ih st, List.filter_cons, if_neg (by simp; omega)]
      · have hdec : decide (cur < v) = true := by simp; omega
        rw [if_neg h1]
        cases hok : ok v with
        | true =>
            rw [if_pos rfl, ih { version := v, applied := st.applied ++ [v] },
              List.filter_cons, if_pos hdec, List.takeWhile_cons_of_pos hok,
              List.getLastD_cons]
            simp [List.all_cons, hok]
        | false =>
            rw [if_neg Bool.false_ne_true, List.filter_cons, if_pos hdec,
              List.takeWhile_cons_of_neg (by simp [hok])]
            simp [List.all_cons, hok]

/-- The recorded version never moves backwards while pending steps are all
above it. -/
theorem runMigrationsList_version_mono (ok : Nat → Bool) (cur : Nat) (L : List Nat)
    (st : MigState) (hv : ∀ x ∈ L, cur < x → st.version < x) :
    st.version ≤ (runMigrationsList ok cur L st).1.version := by
  rw [runMigrationsList_eq]
  refine le_getLastD _ _ (le_refl _) ?_
  intro x hx
  have hx1 : x ∈ L.filter fun v => decide (cur < v) :=
    (List.takeWhile_sublist ok).subset hx
  have hx2 := List.mem_filter.mp hx1
  exact le_of_lt (hv x hx2.1 (of_decide_eq_true hx2.2))

/-- A run whose steps all succeed applies exactly the pending steps, in list
order. -/
theorem runMigrationsList_all_ok (ok : Nat → Bool) (cur : Nat) (L : List Nat)
    (st : MigState) (hok : ∀ x ∈ L, ok x = true) :
    runMigrationsList ok cur L st =
      ({ version := (L.filter fun v => decide (cur < v)).getLastD st.version
         applied := st.applied ++ (L.filter fun v => decide (cur < v)) },
       true) := by
  rw [runMigrationsList_eq]
  have hall : ∀ x ∈ L.filter fun v => decide (cur < v), ok x = true := fun x hx =>
    hok x (List.mem_filter.mp hx).1
  rw [List.takeWhile_eq_self_iff.mpr hall, List.all_eq_true.mpr hall]

/-- Re-running the migration loop (with its steps now succeeding) after an
arbitrary earlier run ends with exactly the pending steps applied once each:
the re-run resumes from the recorded version, never re-applying or skipping
a step. -/
theorem runMigrationsList_resume (ok ok2 : Nat → Bool) (cur : Nat) :
    ∀ (L : List Nat) (st : MigState),
      L.Pairwise (· < ·) →
      cur ≤ st.version →
      (∀ x ∈ L, cur < x → st.version < x) →
      (∀ x ∈ L, ok2 x = true) →
      (runMigrationsList ok2 (runMigrationsList ok cur L st).1.version L
          (runMigrationsList ok cur L st).1).1.applied =
        st.applied ++ L.filter (fun v => decide (cur < v)) := by
  intro L
  induction L with
  | nil => intro st _ _ _ _; simp [runMigrationsList]
  | cons v rest ih =>
      intro st hpair hcur hv hok2
      have hvrest : ∀ x ∈ rest, v < x := fun x hx => (List.pairwise_cons.mp hpair).1 x hx
      have hpairrest := (List.pairwise_cons.mp hpair).2
      by_cases h1 : v ≤ cur
      · have hrun : runMigrationsList ok cur (v :: rest) st =
            runMigrationsList ok cur rest st := by
          simp [runMigrationsList, h1]
        rw [hrun]
        have hmono : st.version ≤ (runMigrationsList ok cur rest st).1.version :=
          runMigrationsList_version_mono ok cur rest st
            (fun x hx hcx => hv x (List.mem_cons_of_mem _ hx) hcx)
        have hskip : runMigrationsList ok2 (runMigrationsList ok cur rest st).1.version
            (v :: rest) (runMigrationsList ok cur rest st).1 =
            runMigrationsList ok2 (runMigrationsList ok cur rest st).1.version rest
              (runMigrationsList ok cur rest st).1 := by
          simp [runMigrationsList, le_trans h1 (le_trans hcur hmono)]
        rw [hskip, List.filter_cons, if_neg (by simp; omega)]
        exact ih st hpairrest hcur
          (fun x hx hcx => hv x (List.mem_cons_of_mem _ hx) hcx)
          (fun x hx => hok2 x (List.mem_cons_of_mem _ hx))
      · have hcv : cur < v := Nat.lt_of_not_le h1
        cases hok : ok v with
        | true =>
            have hrun : runMigrationsList ok cur (v :: rest) st =
                runMigrationsList ok cur rest
                  { version := v, applied := st.applied ++ [v] } := by
              simp [runMigrationsList, h1, hok]
            rw [hrun]
            have hmono : v ≤ (runMigrationsList ok cur rest
                { version := v, applied := st.applied ++ [v] }).1.version :=
              runMigrationsList_version_mono ok cur rest
                { version := v, applied := st.applied ++ [v] }
                (fun x hx _ => hvrest x hx)
            have hskip : runMigrationsList ok2
                (runMigrationsList ok cur rest
                  { version := v, applied := st.applied ++ [v] }).1.version
                (v :: rest)
                (runMigrationsList ok cur rest
                  { version := v, applied := st.applied ++ [v] }).1 =
                runMigrationsList ok2
                  (runMigrationsList ok cur rest
                    { version := v, applied := st.applied ++ [v] }).1.version rest
                  (runMigrationsList ok cur rest
                    { version := v, applied := st.applied ++ [v] }).1 := by
              simp [runMigrationsList, hmono]
            rw [hskip, List.filter_cons, if_pos (by simp; omega)]
            have hih := ih { version := v, applied := st.applied ++ [v] } hpairrest
              (le_of_lt hcv) (fun x hx _ => hvrest x hx)
              (fun x hx => hok2 x (List.mem_cons_of_mem _ hx))
            rw [hih]
            simp
        | false =>
            have hrun : runMigrationsList ok cur (v :: rest) st = (st, false) := by
              simp [runMigrationsList, h1, hok]
            rw [hrun]
            rw [runMigrationsList_all_ok ok2 st.version (v :: rest) st hok2]
            have hcongr : ∀ x ∈ v :: rest,
                (decide (st.version < x)) = (decide (cur < x)) := by
              intro x hx
              rcases Nat.lt_or_ge cur x with hlt | hge
              · rw [decide_eq_true (hv x hx hlt), decide_eq_true hlt]
              · rw [decide_eq_false (by omega), decide_eq_false (by omega)]
            rw [List.filter_congr hcongr]

/-- **C8.** For every recorded schema version, the migration runner applies
exactly the upgrade steps whose version is greater than it, in ascending
(list) order, each step atomic with its version recorded only on success —
a failing step leaves the state at the last fully-applied step — and
re-running after such a crash resumes from the recorded version, applying
each pending step exactly once overall, never re-applying or skipping one. -/
theorem runMigrations_pending_ascending_resumable (ok ok2 : Nat → Bool) (st : MigState)
    (hok2 : ∀ v ∈ migrationVersions, ok2 v = true) :
    ((∀ v ∈ migrationVersions, ok v = true) →
      runMigrations ok st =
        ({ version :=
            (migrationVersions.filter fun v => decide (st.version < v)).getLastD st.version
           applied :=
            st.applied ++ (migrationVersions.filter fun v => decide (st.version < v)) },
         true)) ∧
    (runMigrations ok st).1.applied =
      st.applied ++
        ((migrationVersions.filter fun v => decide (st.version < v)).takeWhile ok) ∧
    (runMigrations ok st).1.version =
      ((migrationVersions.filter fun v => decide (st.version < v)).takeWhile
        ok).getLastD st.version ∧
    (runMigrations ok2 (runMigrations ok st).1).1.applied =
      st.applied ++ (migrationVersions.filter fun v => decide (st.version < v)) := by
  refine ⟨?_, ?_, ?_, ?_⟩
  · intro hok
    exact runMigrationsList_all_ok ok st.version migrationVersions st hok
  · rw [runMigrations, runMigrationsList_eq]
  · rw [runMigrations, runMigrationsList_eq]
  · exact runMigrationsList_resume ok ok2 st.version migrationVersions st (by decide)
      (le_refl _) (fun x _ h => h) hok2

theorem runMigrations_pending_ascending_resumable_witness :
    runMigrations (fun _ => true) { version := 0, applied := [] } =
      ({ version := 3, applied := [1, 2, 3] }, true) ∧
    (runMigrations (fun v => decide (v ≠ 2)) { version := 0, applied := [] }).1.applied =
      [1] ∧
    (runMigrations (fun _ => true)
        (runMigrations (fun v => decide (v ≠ 2))
          { version := 0, applied := [] }).1).1.applied = [1, 2, 3] := by
  have h1 := runMigrations_pending_ascending_resumable (fun _ => true) (fun _ => true)
    { version := 0, applied := [] } (by decide)
  have h2 := runMigrations_pending_ascending_resumable (fun v => decide (v ≠ 2))
    (fun _ => true) { version := 0, applied := [] } (by decide)
  refine ⟨?_, ?_, ?_⟩
  · rw [h1.1 (by decide)]; rfl
  · rw [h2.2.1]; rfl
  · rw [h2.2.2.2]; rfl

end Manfred
